import Mathlib

/-!
Verification of the weiboloader core against its specification.

Shallow embedding of the relevant parts of the source:
  * `src/weiboloader/nodeiterator.py` — `NodeIterator` (`__next__`, `freeze`, `thaw`)
    and `CheckpointManager` (`load`, `save`);
  * `src/weiboloader/ratecontrol.py` — `SlidingWindowRateController`
    (`wait_before_request`, `handle_response`);
  * `src/weiboloader/context.py` — `WeiboLoaderContext.request` / `_handle_response`;
  * `src/weiboloader/adapter.py` — `_extract_media`;
  * `src/weiboloader/weiboloader.py` — `WeiboLoader._download`;
  * `src/weiboloader/naming.py` — `sanitize` and the component loop of
    `build_directory`.

Machine integers do not occur on the verified paths; Python ints are modelled
as `Int`/`Nat`, floats (timestamps, delays) as `ℚ`, Python strings as `String`,
Python lists/deques as `List`, Python sets of strings as `List String` used up
to membership.
-/

/- ------------------------------------------------------------------ -/
/- §1  NodeIterator (src/weiboloader/nodeiterator.py, lines 88-137)    -/
/- ------------------------------------------------------------------ -/

/-- A post as far as the iterator is concerned: its `mid` plus an opaque
payload (`tag`) standing for all the other `Post` fields, so that two distinct
posts may carry the same `mid`. -/
structure NPost where
  mid : String
  tag : Nat
deriving DecidableEq, Repr

/-- Model of `CursorState` (src/weiboloader/structures.py, lines 46-52). -/
structure CursorState where
  page : Int
  cursor : Option String
  seen_mids : List String
  options_hash : String
  timestamp : Option String
deriving DecidableEq, Repr

/-- The mutable state of a `NodeIterator`: `_page`, `_cursor`, `_seen`,
`_buffer`, `_exhausted`, plus `_options_hash`.  The Python `_seen` is a
`set[str]`; it is modelled as the list of its elements and consulted only
through membership. -/
structure IterState where
  page : Int
  cursor : Option String
  seen : List String
  buffer : List NPost
  exhausted : Bool
  ohash : String
deriving DecidableEq, Repr

/-- A page source: what the injected `_fetch_page` returns as a function of the
iterator's page counter (this is exactly how `_PostIterator._fetch_page` in
src/weiboloader/weiboloader.py consumes the counter: `self._fetch(self._page)`).
Result: `(posts, next_cursor, has_more)`. -/
def PageSource : Type := Int → List NPost × Option String × Bool

/-- Fresh iterator state (`NodeIterator.__init__`). -/
def initIter (ohash : String) : IterState :=
  { page := 1, cursor := none, seen := [], buffer := [], exhausted := false,
    ohash := ohash }

/-- The `while not self._buffer and not self._exhausted` loop of
`NodeIterator.__next__`: fetch a page, append the posts whose `mid` is not in
`_seen` to the buffer, advance the page counter, update the cursor, set
`_exhausted` when `has_more` is false.  `fuel` bounds the number of fetches
(the Python loop has no such bound and can spin forever on empty pages with
`has_more = True`; every theorem below quantifies over `fuel`). -/
def fillBuffer (src : PageSource) : Nat → IterState → IterState
  | 0, st => st
  | fuel + 1, st =>
    if st.buffer = [] ∧ st.exhausted = false then
      let r := src st.page
      let newPosts := r.1.filter (fun p => ¬ st.seen.contains p.mid)
      fillBuffer src fuel
        { st with
          page := st.page + 1
          cursor := r.2.1
          buffer := st.buffer ++ newPosts
          exhausted := !r.2.2 }
    else st

/-- Step of `NodeIterator.__next__` after the fetch loop: pop the front of the buffer,
insert its `mid` into `_seen`, return it; `none` models `StopIteration`. -/
def iterNext (src : PageSource) (fuel : Nat) (st : IterState) :
    Option (NPost × IterState) :=
  let st' := fillBuffer src fuel st
  match st'.buffer with
  | [] => none
  | p :: rest =>
    some (p, { st' with buffer := rest, seen := st'.seen ++ [p.mid] })

/-- The list of the next (at most) `n` posts yielded by the iterator. -/
def runIter (src : PageSource) (fuel : Nat) : Nat → IterState → List NPost
  | 0, _ => []
  | n + 1, st =>
    match iterNext src fuel st with
    | none => []
    | some (p, st') => p :: runIter src fuel n st'

/-- Model of `NodeIterator.freeze` (nodeiterator.py lines 121-129); `now` stands for
`datetime.now().isoformat()`. -/
def freezeIter (st : IterState) (now : String) : CursorState :=
  { page := st.page, cursor := st.cursor, seen_mids := st.seen,
    options_hash := st.ohash, timestamp := some now }

/-- Model of `NodeIterator.thaw` (nodeiterator.py lines 131-137): restore page, cursor
and seen set, clear the buffer, reset `_exhausted`. -/
def thawIter (s : CursorState) : IterState :=
  { page := s.page, cursor := s.cursor, seen := s.seen_mids,
    buffer := [], exhausted := false, ohash := s.options_hash }

/- Iterator invariant: buffered posts have pairwise-distinct mids, none of
which has been yielded (inserted into `_seen`) yet. -/
def GoodIter (st : IterState) : Prop :=
  (st.buffer.map NPost.mid).Nodup ∧ ∀ p ∈ st.buffer, p.mid ∉ st.seen

/-- Pages with pairwise-distinct mids, as produced by
`WeiboLoaderContext._parse_posts` (which deduplicates each page by mid). -/
def DistinctPages (src : PageSource) : Prop :=
  ∀ k : Int, (((src k).1).map NPost.mid).Nodup

theorem fillBuffer_seen (src : PageSource) (fuel : Nat) (st : IterState) :
    (fillBuffer src fuel st).seen = st.seen := by
  induction fuel generalizing st with
  | zero => rfl
  | succ fuel ih =>
    rw [fillBuffer]
    split
    · rw [ih]
    · rfl

theorem fillBuffer_good (src : PageSource) (hsrc : DistinctPages src)
    (fuel : Nat) (st : IterState) (hst : GoodIter st) :
    GoodIter (fillBuffer src fuel st) := by
  induction fuel generalizing st with
  | zero => exact hst
  | succ fuel ih =>
    rw [fillBuffer]
    split
    · rename_i hcond
      apply ih
      constructor
      · rw [hcond.1]
        simp only [List.nil_append]
        exact ((List.filter_sublist _).map NPost.mid).nodup (hsrc st.page)
      · intro p hp
        rw [hcond.1] at hp
        simp only [List.nil_append, List.mem_filter] at hp
        simpa using hp.2
    · exact hst

theorem iterNext_spec (src : PageSource) (hsrc : DistinctPages src)
    (fuel : Nat) (st : IterState) (hst : GoodIter st) (p : NPost)
    (st' : IterState) (h : iterNext src fuel st = some (p, st')) :
    GoodIter st' ∧ st'.seen = st.seen ++ [p.mid] ∧ p.mid ∉ st.seen := by
  have hfill := fillBuffer_good src hsrc fuel st hst
  have hseen := fillBuffer_seen src fuel st
  rw [iterNext] at h
  revert h
  cases hbuf : (fillBuffer src fuel st).buffer with
  | nil => intro h; cases h
  | cons q rest =>
    intro h
    rw [GoodIter, hbuf] at hfill
    rw [hseen] at hfill
    cases h
    refine ⟨⟨hfill.1.of_cons, ?_⟩, by rw [hseen], ?_⟩
    · intro r hr
      simp only [List.mem_append, List.mem_singleton, hseen]
      push_neg
      refine ⟨hfill.2 r (List.mem_cons_of_mem p hr), ?_⟩
      intro hrq
      have := hfill.1
      simp only [List.map_cons, List.nodup_cons, List.mem_map] at this
      exact this.1 ⟨r, hr, hrq⟩
    · exact hfill.2 p (List.mem_cons_self p rest)

theorem runIter_nodup (src : PageSource) (hsrc : DistinctPages src)
    (fuel n : Nat) (st : IterState) (hst : GoodIter st) :
    ((runIter src fuel n st).map NPost.mid).Nodup ∧
      ∀ m ∈ (runIter src fuel n st).map NPost.mid, m ∉ st.seen := by
  induction n generalizing st with
  | zero => simp [runIter]
  | succ n ih =>
    rw [runIter]
    cases hnext : iterNext src fuel st with
    | none => simp
    | some pr =>
      obtain ⟨p, st'⟩ := pr
      obtain ⟨hg', hseen', hnotin⟩ := iterNext_spec src hsrc fuel st hst p st' hnext
      obtain ⟨ihnd, ihnotin⟩ := ih st' hg'
      constructor
      · simp only [List.map_cons, List.nodup_cons]
        refine ⟨?_, ihnd⟩
        intro hmem
        have := ihnotin p.mid hmem
        rw [hseen'] at this
        simp at this
      · intro m hm
        simp only [List.map_cons, List.mem_cons] at hm
        rcases hm with hm | hm
        · rw [hm]; exact hnotin
        · have := ihnotin m hm
          rw [hseen'] at this
          simp only [List.mem_append, not_or] at this
          exact this.1

/-- A page source whose first page carries the same mid twice. -/
def srcDupMid : PageSource := fun k =>
  if k = 1 then ([⟨"m", 0⟩, ⟨"m", 1⟩], none, false) else ([], none, false)

/-- Claim C1, counterexample: `__next__` filters fetched posts against `_seen`
when buffering but inserts a mid into `_seen` only when the post is popped, so
a page containing the same mid twice is buffered twice and yielded twice.  A
fresh iterator over `srcDupMid` yields the mid `"m"` two times. -/
theorem iterator_duplicate_mid_within_page :
    (runIter srcDupMid 1 3 (initIter "")).map NPost.mid = ["m", "m"] ∧
      ¬ ((runIter srcDupMid 1 3 (initIter "")).map NPost.mid).Nodup := by
  constructor
  · rfl
  · decide

/-- Claim C1 (corrected): a single `NodeIterator` never yields two posts with
the same `mid`, provided every page returned by `_fetch_page` has
pairwise-distinct mids (as the pages built by
`WeiboLoaderContext._parse_posts` do); duplicates of a mid within one fetched
page are, however, each yielded (see the counterexample). -/
theorem iterator_no_duplicate_mids (src : PageSource)
    (hsrc : DistinctPages src) (ohash : String) (fuel n : Nat) :
    ((runIter src fuel n (initIter ohash)).map NPost.mid).Nodup :=
  (runIter_nodup src hsrc fuel n (initIter ohash)
    ⟨List.nodup_nil, by intro p hp; cases hp⟩).1

/-- A page source with two distinct-mid posts on page 1 and nothing after. -/
def srcTwoPosts : PageSource := fun k =>
  if k = 1 then ([⟨"m1", 0⟩, ⟨"m2", 0⟩], none, false) else ([], none, false)

/-- Witness for `iterator_no_duplicate_mids` at a concrete page source. -/
theorem iterator_no_duplicate_mids_witness :
    DistinctPages srcTwoPosts ∧
      ((runIter srcTwoPosts 2 5 (initIter "")).map NPost.mid).Nodup := by
  have hd : DistinctPages srcTwoPosts := by
    intro k
    rw [srcTwoPosts]
    split <;> decide
  exact ⟨hd, iterator_no_duplicate_mids srcTwoPosts hd "" 2 5⟩

/-- The state of an iterator over `srcTwoPosts` that has yielded `m1` and
still holds `m2` in its buffer. -/
def midBufferState : IterState :=
  { page := 2, cursor := none, seen := ["m1"], buffer := [⟨"m2", 0⟩],
    exhausted := true, ohash := "" }

/-- Claim C2, counterexample: `freeze` records only `(page, cursor, seen)` and
`thaw` clears the buffer, so freezing while posts are buffered loses them.
Advancing a fresh iterator over `srcTwoPosts` one step reaches
`midBufferState`, whose remaining suffix is the post `m2`; an iterator thawed
from `freeze` of that state yields nothing. -/
theorem iterator_resume_loses_buffer :
    iterNext srcTwoPosts 1 (initIter "") = some (⟨"m1", 0⟩, midBufferState) ∧
      runIter srcTwoPosts 2 5 midBufferState = [⟨"m2", 0⟩] ∧
      runIter srcTwoPosts 2 5 (thawIter (freezeIter midBufferState "t")) = [] := by
  refine ⟨rfl, rfl, rfl⟩

/-- Claim C2 (corrected): if at freeze time the iterator's buffer is empty and
it is not exhausted (i.e. it stands exactly at a page boundary), then a fresh
iterator thawed from the frozen `CursorState` produces exactly the remaining
suffix: its run coincides with the original iterator's continued run, for
every page source, fuel and length. -/
theorem iterator_resume_suffix (src : PageSource) (st : IterState)
    (h1 : st.buffer = []) (h2 : st.exhausted = false) (now : String)
    (fuel n : Nat) :
    runIter src fuel n (thawIter (freezeIter st now)) = runIter src fuel n st := by
  have : thawIter (freezeIter st now) = st := by
    cases st
    simp only [thawIter, freezeIter] at *
    simp_all
  rw [this]

/-- Witness for `iterator_resume_suffix` at the post-page-boundary state of an
iterator over `srcTwoPosts` that has yielded both posts of page 1. -/
theorem iterator_resume_suffix_witness :
    ({ page := 2, cursor := none, seen := ["m1", "m2"], buffer := [],
       exhausted := false, ohash := "" } : IterState).buffer = [] ∧
      runIter srcTwoPosts 3 4 (thawIter (freezeIter
        { page := 2, cursor := none, seen := ["m1", "m2"], buffer := [],
          exhausted := false, ohash := "" } "t")) =
        runIter srcTwoPosts 3 4
          { page := 2, cursor := none, seen := ["m1", "m2"], buffer := [],
            exhausted := false, ohash := "" } :=
  ⟨rfl, iterator_resume_suffix srcTwoPosts _ rfl rfl "t" 3 4⟩

/- ------------------------------------------------------------------ -/
/- §2  SlidingWindowRateController (src/weiboloader/ratecontrol.py)    -/
/- ------------------------------------------------------------------ -/

/-- Constructor arguments of `SlidingWindowRateController` (both buckets share
this configuration).  The constructor requires `api_limit > 0` and
`api_window > 0`. -/
structure RCConfig where
  limit : Nat
  window : ℚ
  base_delay : ℚ
  max_delay : ℚ
  jitter_ratio : ℚ
  request_interval : ℚ
deriving DecidableEq, Repr

/-- Model of `_BucketState` (ratecontrol.py lines 17-22). -/
structure BucketState where
  timestamps : List ℚ
  last_request_at : Option ℚ
  failures : Nat
  backoff_until : ℚ
deriving DecidableEq, Repr

def BucketState.init : BucketState :=
  { timestamps := [], last_request_at := none, failures := 0, backoff_until := 0 }

/-- One pass of the body of `wait_before_request`'s `while True` loop, taken
under the controller lock at clock value `now`:  evict timestamps older than
the window from the front of the deque, compute the required wait, and if the
wait is `≤ 0` record `now` atomically (returning `true`); otherwise keep the
evicted deque and return `false` (the caller sleeps and loops).  `isApi` tells
whether this is the `"api"` bucket (the minimum-interval term applies only
there). -/
def evictedTs (cfg : RCConfig) (st : BucketState) (now : ℚ) : List ℚ :=
  st.timestamps.dropWhile (fun s => decide (cfg.window ≤ now - s))

/-- The `wait` value computed by the loop body: `wait = 0.0`, raised by the
earliest surviving timestamp when the deque is full, by the minimum request
interval on the `api` bucket, and by the backoff deadline. -/
def waitAmount (cfg : RCConfig) (isApi : Bool) (st : BucketState) (now : ℚ) : ℚ :=
  let ts := evictedTs cfg st now
  let w1 : ℚ := if cfg.limit ≤ ts.length then ts.headD 0 + cfg.window - now else 0
  let w2 : ℚ :=
    if isApi ∧ 0 < cfg.request_interval then
      match st.last_request_at with
      | some l => l + cfg.request_interval - now
      | none => 0
    else 0
  max (max (max 0 w1) w2) (st.backoff_until - now)

def wait_step (cfg : RCConfig) (isApi : Bool) (st : BucketState) (now : ℚ) :
    BucketState × Bool :=
  let ts := evictedTs cfg st now
  if waitAmount cfg isApi st now ≤ 0 then
    ({ st with timestamps := ts ++ [now], last_request_at := some now }, true)
  else
    ({ st with timestamps := ts }, false)

/-- Model of `handle_response` (ratecontrol.py lines 90-100) on one bucket's state, at
clock value `now`; `r` is the value drawn by `self._random.random()`
(`r ∈ [0, 1)`). -/
def handle_response (cfg : RCConfig) (st : BucketState) (status : Nat)
    (now r : ℚ) : BucketState :=
  if status = 403 ∨ status = 418 then
    let f := st.failures + 1
    let base := min (cfg.base_delay * 2 ^ (f - 1)) cfg.max_delay
    let jitter := base * cfg.jitter_ratio * r
    { st with failures := f, backoff_until := now + base + jitter }
  else if 200 ≤ status ∧ status < 400 then
    { st with failures := 0, backoff_until := 0 }
  else st

/-- An event on the controller: one locked pass of `wait_before_request`'s
loop on a bucket, or one `handle_response` call.  `api = true` selects the
`"api"` bucket, `api = false` the `"media"` bucket.  Because every pass runs
under the controller's lock, any concurrent interleaving of calls is some
sequence of these events with non-decreasing clock values (`time.monotonic`).
-/
inductive RCEvent where
  | attempt (api : Bool) (t : ℚ)
  | response (api : Bool) (status : Nat) (t : ℚ) (r : ℚ)
deriving DecidableEq, Repr

def RCEvent.time : RCEvent → ℚ
  | .attempt _ t => t
  | .response _ _ t _ => t

/-- Full controller state plus the history of recorded request timestamps of
each bucket (a request is "recorded" when a `wait_before_request` pass appends
its clock value to the bucket's deque and returns). -/
structure RCRun where
  api : BucketState
  media : BucketState
  recApi : List ℚ
  recMedia : List ℚ
deriving DecidableEq, Repr

def RCRun.init : RCRun :=
  { api := BucketState.init, media := BucketState.init, recApi := [], recMedia := [] }

def rcStep (cfg : RCConfig) (run : RCRun) (e : RCEvent) : RCRun :=
  match e with
  | .attempt true t =>
    let p := wait_step cfg true run.api t
    { run with api := p.1, recApi := run.recApi ++ if p.2 then [t] else [] }
  | .attempt false t =>
    let p := wait_step cfg false run.media t
    { run with media := p.1, recMedia := run.recMedia ++ if p.2 then [t] else [] }
  | .response true status t r =>
    { run with api := handle_response cfg run.api status t r }
  | .response false status t r =>
    { run with media := handle_response cfg run.media status t r }

def rcRun (cfg : RCConfig) (evs : List RCEvent) : RCRun :=
  evs.foldl (rcStep cfg) RCRun.init

/-- Membership of a timestamp in the rolling window `[a, a + W)`. -/
def inWindow (W a : ℚ) : ℚ → Bool := fun s => decide (a ≤ s ∧ s < a + W)

/-- Invariant tying a bucket's recorded-request history `R` to its deque, at
clock value `T` (every event so far happened at a time `≤ T`):  the deque is a
suffix of the history whose evicted complement lies a full window in the past,
all records are in the past, and no window of width `W` holds more than `L`
records. -/
def BInv (L : Nat) (W : ℚ) (R : List ℚ) (st : BucketState) (T : ℚ) : Prop :=
  (∃ P, R = P ++ st.timestamps ∧ ∀ s ∈ P, s + W ≤ T) ∧
    (∀ s ∈ R, s ≤ T) ∧
    (∀ a : ℚ, R.countP (inWindow W a) ≤ L)

theorem BInv.mono {L : Nat} {W : ℚ} {R : List ℚ} {st : BucketState}
    {T T' : ℚ} (h : BInv L W R st T) (hT : T ≤ T') : BInv L W R st T' := by
  obtain ⟨⟨P, hP, hPb⟩, hub, hw⟩ := h
  exact ⟨⟨P, hP, fun s hs => le_trans (hPb s hs) hT⟩,
    fun s hs => le_trans (hub s hs) hT, hw⟩

theorem handle_response_timestamps (cfg : RCConfig) (st : BucketState)
    (status : Nat) (now r : ℚ) :
    (handle_response cfg st status now r).timestamps = st.timestamps ∧
      (handle_response cfg st status now r).last_request_at =
        st.last_request_at := by
  rw [handle_response]
  split
  · exact ⟨rfl, rfl⟩
  · split
    · exact ⟨rfl, rfl⟩
    · exact ⟨rfl, rfl⟩

theorem BInv.response {cfg : RCConfig} {L : Nat} {W : ℚ} {R : List ℚ}
    {st : BucketState} {T : ℚ} (h : BInv L W R st T) (status : Nat)
    (now r : ℚ) (hT : T ≤ now) :
    BInv L W R (handle_response cfg st status now r) now := by
  have hts := (handle_response_timestamps cfg st status now r).1
  obtain ⟨⟨P, hP, hPb⟩, hub, hw⟩ := h
  refine ⟨⟨P, ?_, fun s hs => le_trans (hPb s hs) hT⟩,
    fun s hs => le_trans (hub s hs) hT, hw⟩
  rw [hts]
  exact hP

theorem wait_step_cases (cfg : RCConfig) (isApi : Bool) (st : BucketState)
    (now : ℚ) :
    (waitAmount cfg isApi st now ≤ 0 ∧
        wait_step cfg isApi st now =
          ({ st with timestamps := evictedTs cfg st now ++ [now],
                     last_request_at := some now }, true)) ∨
      (¬ waitAmount cfg isApi st now ≤ 0 ∧
        wait_step cfg isApi st now =
          ({ st with timestamps := evictedTs cfg st now }, false)) := by
  rw [wait_step]
  split
  · exact Or.inl ⟨by assumption, rfl⟩
  · exact Or.inr ⟨by assumption, rfl⟩

/-- When the loop body records a request, fewer than `limit` timestamps
survived eviction (with `limit > 0`): a full deque forces a strictly positive
wait through the earliest surviving timestamp. -/
theorem wait_step_records_implies_room (cfg : RCConfig) (isApi : Bool)
    (st : BucketState) (now : ℚ) (hL : 0 < cfg.limit)
    (hw : waitAmount cfg isApi st now ≤ 0) :
    (evictedTs cfg st now).length < cfg.limit := by
  by_contra hlen
  push_neg at hlen
  rcases hts' : evictedTs cfg st now with _ | ⟨t0, rest⟩
  · rw [hts'] at hlen
    simp at hlen
    omega
  · have hhead : now - t0 < cfg.window := by
      have := List.head?_dropWhile_not
        (fun s => decide (cfg.window ≤ now - s)) st.timestamps
      rw [show st.timestamps.dropWhile (fun s => decide (cfg.window ≤ now - s)) =
        evictedTs cfg st now from rfl, hts'] at this
      simpa using this
    have hpos : 0 < t0 + cfg.window - now := by linarith
    have hcomp : t0 + cfg.window - now ≤ waitAmount cfg isApi st now := by
      rw [waitAmount]
      simp only [hts']
      rw [if_pos]
      · exact le_max_of_le_left (le_max_of_le_left (le_max_right _ _))
      · rw [← hts']
        exact hlen
    linarith

theorem BInv.attempt {cfg : RCConfig} {R : List ℚ} {st : BucketState}
    {T : ℚ} (hL : 0 < cfg.limit) (h : BInv cfg.limit cfg.window R st T)
    (isApi : Bool) (now : ℚ) (hT : T ≤ now) :
    BInv cfg.limit cfg.window
      (R ++ if (wait_step cfg isApi st now).2 then [now] else [])
      (wait_step cfg isApi st now).1 now := by
  obtain ⟨⟨P, hP, hPb⟩, hub, hw⟩ := h
  have hsplit : st.timestamps =
      st.timestamps.takeWhile (fun s => decide (cfg.window ≤ now - s)) ++
        evictedTs cfg st now :=
    (List.takeWhile_append_dropWhile _ _).symm
  have hdropbound :
      ∀ s ∈ st.timestamps.takeWhile (fun s => decide (cfg.window ≤ now - s)),
        s + cfg.window ≤ now := by
    intro s hs
    have := List.mem_takeWhile_imp hs
    simp only [decide_eq_true_eq] at this
    linarith
  have hPall : ∀ s ∈ P ++
      st.timestamps.takeWhile (fun s => decide (cfg.window ≤ now - s)),
        s + cfg.window ≤ now := by
    intro s hs
    rcases List.mem_append.mp hs with hs | hs
    · exact le_trans (hPb s hs) (by linarith)
    · exact hdropbound s hs
  have hRsplit : R = (P ++
      st.timestamps.takeWhile (fun s => decide (cfg.window ≤ now - s))) ++
        evictedTs cfg st now := by
    rw [hP, List.append_assoc, ← hsplit]
  rcases wait_step_cases cfg isApi st now with ⟨hwle, heq⟩ | ⟨hwgt, heq⟩
  · -- recorded: `now` is appended to both the deque and the history
    have hroom := wait_step_records_implies_room cfg isApi st now hL hwle
    have hb1 : (wait_step cfg isApi st now).1 =
        { st with timestamps := evictedTs cfg st now ++ [now],
                  last_request_at := some now } := by rw [heq]
    have hb2 : (wait_step cfg isApi st now).2 = true := by rw [heq]
    rw [hb1, hb2, if_pos rfl]
    refine ⟨⟨P ++ st.timestamps.takeWhile (fun s => decide (cfg.window ≤ now - s)),
      ?_, hPall⟩, ?_, ?_⟩
    · rw [hRsplit]
      simp [List.append_assoc]
    · intro s hs
      rcases List.mem_append.mp hs with hs | hs
      · exact le_trans (hub s hs) hT
      · simp only [List.mem_singleton] at hs
        simp [hs]
    · intro a
      rw [List.countP_append]
      rcases hwin : inWindow cfg.window a now with _ | _
      · have hz : List.countP (inWindow cfg.window a) [now] = 0 := by
          simp [hwin]
        rw [hz]
        have := hw a
        omega
      · -- `now` lies in `[a, a + W)`; previously recorded timestamps in that
        -- window all survived eviction, of which there are fewer than `limit`
        simp only [inWindow, decide_eq_true_eq] at hwin
        have hcount : R.countP (inWindow cfg.window a) ≤
            (evictedTs cfg st now).length := by
          rw [hRsplit, List.countP_append]
          have hzero : (P ++
              st.timestamps.takeWhile (fun s => decide (cfg.window ≤ now - s))).countP
                (inWindow cfg.window a) = 0 := by
            rw [List.countP_eq_zero]
            intro s hs
            have hsb := hPall s hs
            simp only [inWindow, decide_eq_true_eq, not_and, not_lt]
            intro ha
            linarith [hwin.2]
          rw [hzero]
          have := List.countP_le_length (inWindow cfg.window a)
            (l := evictedTs cfg st now)
          omega
        have hone : List.countP (inWindow cfg.window a) [now] ≤ 1 := by
          rw [List.countP_cons, List.countP_nil]
          split <;> omega
        omega
  · -- not recorded: the history is unchanged, the deque keeps its evicted form
    have hb1 : (wait_step cfg isApi st now).1 =
        { st with timestamps := evictedTs cfg st now } := by rw [heq]
    have hb2 : (wait_step cfg isApi st now).2 = false := by rw [heq]
    rw [hb1, hb2, if_neg (by simp), List.append_nil]
    exact ⟨⟨P ++ st.timestamps.takeWhile (fun s => decide (cfg.window ≤ now - s)),
      hRsplit, hPall⟩, fun s hs => le_trans (hub s hs) hT, hw⟩

/-- The two-bucket invariant over a whole run. -/
def RCInv (cfg : RCConfig) (run : RCRun) (T : ℚ) : Prop :=
  BInv cfg.limit cfg.window run.recApi run.api T ∧
    BInv cfg.limit cfg.window run.recMedia run.media T

theorem rcStep_inv {cfg : RCConfig} (hL : 0 < cfg.limit) {run : RCRun}
    {T : ℚ} (h : RCInv cfg run T) (e : RCEvent) (hT : T ≤ e.time) :
    RCInv cfg (rcStep cfg run e) e.time := by
  obtain ⟨hapi, hmedia⟩ := h
  cases e with
  | attempt api t =>
    cases api with
    | true => exact ⟨hapi.attempt hL true t hT, hmedia.mono hT⟩
    | false => exact ⟨hapi.mono hT, hmedia.attempt hL false t hT⟩
  | response api status t r =>
    cases api with
    | true => exact ⟨hapi.response status t r hT, hmedia.mono hT⟩
    | false => exact ⟨hapi.mono hT, hmedia.response status t r hT⟩

theorem rcFold_inv {cfg : RCConfig} (hL : 0 < cfg.limit) :
    ∀ (evs : List RCEvent) (run : RCRun) (T : ℚ), RCInv cfg run T →
      (∀ e ∈ evs, T ≤ e.time) →
      evs.Pairwise (fun e1 e2 => e1.time ≤ e2.time) →
      ∃ T', RCInv cfg (evs.foldl (rcStep cfg) run) T'
  | [], run, T, h, _, _ => ⟨T, h⟩
  | e :: rest, run, T, h, hfirst, hmono => by
    rw [List.foldl_cons]
    have hstep := rcStep_inv hL h e (hfirst e (List.mem_cons_self e rest))
    have hrest : ∀ x ∈ rest, e.time ≤ x.time := fun x hx =>
      (List.pairwise_cons.mp hmono).1 x hx
    exact rcFold_inv hL rest (rcStep cfg run e) e.time hstep hrest
      (List.pairwise_cons.mp hmono).2

theorem rcRun_window (cfg : RCConfig) (hL : 0 < cfg.limit)
    (evs : List RCEvent)
    (hmono : evs.Pairwise (fun e1 e2 => e1.time ≤ e2.time)) :
    (∀ a : ℚ, (rcRun cfg evs).recApi.countP (inWindow cfg.window a) ≤ cfg.limit) ∧
      ∀ a : ℚ, (rcRun cfg evs).recMedia.countP (inWindow cfg.window a) ≤ cfg.limit := by
  have hinit : ∀ T : ℚ, RCInv cfg RCRun.init T := by
    intro T
    refine ⟨⟨⟨[], rfl, ?_⟩, ?_, ?_⟩, ⟨[], rfl, ?_⟩, ?_, ?_⟩ <;>
      simp [RCRun.init, BucketState.init]
  rcases evs with _ | ⟨e, rest⟩
  · refine ⟨fun a => ?_, fun a => ?_⟩ <;> simp [rcRun, RCRun.init]
  · have hfirst : ∀ x ∈ e :: rest, e.time ≤ x.time := by
      intro x hx
      rcases List.mem_cons.mp hx with hx | hx
      · rw [hx]
      · exact (List.pairwise_cons.mp hmono).1 x hx
    obtain ⟨T', h1, h2⟩ :=
      rcFold_inv hL (e :: rest) RCRun.init e.time (hinit e.time) hfirst hmono
    exact ⟨h1.2.2, h2.2.2⟩

/-- Scenario S6 configuration: `L = 3`, `W = 10`, `jitter_ratio = 0`. -/
def cfg6 : RCConfig :=
  { limit := 3, window := 10, base_delay := 30, max_delay := 600,
    jitter_ratio := 0, request_interval := 0 }

/-- Three `api` requests issued at `t = 0, 1, 2`. -/
def s6Events : List RCEvent :=
  [.attempt true 0, .attempt true 1, .attempt true 2]

/-- The `api` bucket state after the three recorded requests of S6. -/
def s6State : BucketState :=
  { timestamps := [0, 1, 2], last_request_at := some 2, failures := 0,
    backoff_until := 0 }

theorem s6_reach : (rcRun cfg6 s6Events).api = s6State := by
  norm_num [rcRun, rcStep, s6Events, wait_step, waitAmount, evictedTs,
    RCRun.init, BucketState.init, s6State, cfg6, List.dropWhile]

theorem s6_blocks (t : ℚ) (h3 : 3 ≤ t) (h10 : t < 10) :
    (wait_step cfg6 true s6State t).2 = false := by
  have hev : evictedTs cfg6 s6State t = [0, 1, 2] := by
    rw [evictedTs]
    show List.dropWhile (fun s => decide (cfg6.window ≤ t - s)) [0, 1, 2] = [0, 1, 2]
    rw [List.dropWhile_cons, if_neg]
    simp only [decide_eq_true_eq, not_le, cfg6]
    linarith
  have hwa : 10 - t ≤ waitAmount cfg6 true s6State t := by
    rw [waitAmount]
    simp only [hev]
    rw [if_pos (by norm_num [cfg6])]
    have hh : ([0, 1, 2] : List ℚ).headD 0 + cfg6.window - t = 10 - t := by
      norm_num [cfg6]
    rw [hh]
    exact le_max_of_le_left (le_max_of_le_left (le_max_right _ _))
  rw [wait_step, if_neg]
  linarith

theorem s6_unblocks : (wait_step cfg6 true s6State 10).2 = true := by
  norm_num [wait_step, waitAmount, evictedTs, s6State, cfg6, List.dropWhile]

/-- Claim C3 (confirmed): for every interleaving of locked
`wait_before_request` loop passes and `handle_response` calls with a monotone
clock, each bucket's recorded request history has at most `limit` timestamps
in any rolling window `[a, a + window)`; and in scenario S6 (`L = 3`,
`W = 10`, jitter 0, requests recorded at `t = 0, 1, 2`, reaching `s6State`), a
fourth `wait_before_request` call does not record its request at any time
before `t = 10`, while a pass at `t = 10` does record. -/
theorem rate_window_conformance (cfg : RCConfig) (hL : 0 < cfg.limit)
    (evs : List RCEvent)
    (hmono : evs.Pairwise (fun e1 e2 => e1.time ≤ e2.time)) :
    ((∀ a : ℚ, (rcRun cfg evs).recApi.countP (inWindow cfg.window a) ≤ cfg.limit) ∧
      ∀ a : ℚ, (rcRun cfg evs).recMedia.countP (inWindow cfg.window a) ≤ cfg.limit) ∧
      ((rcRun cfg6 s6Events).api = s6State ∧
        (∀ t : ℚ, 3 ≤ t → t < 10 → (wait_step cfg6 true s6State t).2 = false) ∧
        (wait_step cfg6 true s6State 10).2 = true) :=
  ⟨rcRun_window cfg hL evs hmono, s6_reach, s6_blocks, s6_unblocks⟩

/-- S6's three requests followed by a fourth loop pass at `t = 3`. -/
def s6EventsX : List RCEvent :=
  [.attempt true 0, .attempt true 1, .attempt true 2, .attempt true 3]

theorem s6EventsX_mono :
    s6EventsX.Pairwise (fun e1 e2 => e1.time ≤ e2.time) := by
  rw [s6EventsX]
  refine List.Pairwise.cons ?_ (List.Pairwise.cons ?_ (List.Pairwise.cons ?_ ?_))
  · intro e he; fin_cases he <;> norm_num [RCEvent.time]
  · intro e he; fin_cases he <;> norm_num [RCEvent.time]
  · intro e he; fin_cases he <;> norm_num [RCEvent.time]
  · exact List.pairwise_singleton _ _

/-- Witness for `rate_window_conformance`: in the S6 run extended by the
rejected pass at `t = 3`, the window starting at `0` holds at most 3 recorded
api requests. -/
theorem rate_window_conformance_witness :
    0 < cfg6.limit ∧
      (rcRun cfg6 s6EventsX).recApi.countP (inWindow cfg6.window 0) ≤ cfg6.limit :=
  ⟨by norm_num [cfg6],
    (rate_window_conformance cfg6 (by norm_num [cfg6]) s6EventsX s6EventsX_mono).1.1 0⟩

/-- Default-like configuration exposing the jitter clamp: `base_delay = 30`,
`max_delay = 600`, `jitter_ratio = 1/2`. -/
def cfg5 : RCConfig :=
  { limit := 30, window := 600, base_delay := 30, max_delay := 600,
    jitter_ratio := 1/2, request_interval := 0 }

/-- A bucket that has already failed five times. -/
def st5 : BucketState :=
  { timestamps := [], last_request_at := none, failures := 5,
    backoff_until := 0 }

/-- Claim C5, counterexample: the code draws its jitter from the clamped
base `min(base_delay·2^f, max_delay)`, not from `base_delay·2^f` as the claim
states.  With `f = 5`, `base_delay = 30`, `max_delay = 600`,
`jitter_ratio = 1/2` and the uniform draw `r = 1/2` (so the claimed jitter is
`base_delay·2^f·jitter_ratio·r`), a 403 at `now = 0` sets `backoff_until` to
`600 + 600·(1/2)·(1/2) = 750`, whereas the claim's formula yields
`600 + 960·(1/2)·(1/2) = 840`. -/
theorem handle_response_jitter_cex :
    (handle_response cfg5 st5 403 0 (1/2)).backoff_until = 750 ∧
      (750 : ℚ) ≠
        0 + min (cfg5.base_delay * 2 ^ st5.failures) cfg5.max_delay +
          cfg5.base_delay * 2 ^ st5.failures * cfg5.jitter_ratio * (1/2) := by
  constructor
  · norm_num [handle_response, cfg5, st5]
  · norm_num [cfg5, st5]

/-- Claim C5 (corrected): `handle_response` on a 403/418 increments the
failure count from `f` to `f + 1` and sets the backoff end to
`now + B + B·jitter_ratio·r` where `B = min(base_delay·2^f, max_delay)` and
`r` is the uniform draw — i.e. the jitter is uniform in
`[0, min(base_delay·2^f, max_delay)·jitter_ratio)`, the clamped base, not
`base_delay·2^f`; on any other status in `[200, 400)` it resets failures and
backoff to 0; all remaining statuses leave the bucket state unchanged. -/
theorem handle_response_spec (cfg : RCConfig) (st : BucketState)
    (status : Nat) (now r : ℚ) :
    ((status = 403 ∨ status = 418) →
      handle_response cfg st status now r =
        { st with
            failures := st.failures + 1,
            backoff_until := now +
              min (cfg.base_delay * 2 ^ st.failures) cfg.max_delay +
              min (cfg.base_delay * 2 ^ st.failures) cfg.max_delay *
                cfg.jitter_ratio * r }) ∧
      (¬(status = 403 ∨ status = 418) → 200 ≤ status → status < 400 →
        handle_response cfg st status now r =
          { st with failures := 0, backoff_until := 0 }) ∧
      (¬(status = 403 ∨ status = 418) → ¬(200 ≤ status ∧ status < 400) →
        handle_response cfg st status now r = st) := by
  refine ⟨fun h => ?_, fun h h2 h3 => ?_, fun h h2 => ?_⟩
  · rw [handle_response, if_pos h]
    simp
  · rw [handle_response, if_neg h, if_pos ⟨h2, h3⟩]
  · rw [handle_response, if_neg h, if_neg h2]

/-- Witness for `handle_response_spec` at status 403 (first implication), 204
(second) and 500 (third) on concrete inputs. -/
theorem handle_response_spec_witness :
    (handle_response cfg5 st5 403 0 (1/2) =
      { st5 with
          failures := st5.failures + 1,
          backoff_until := 0 +
            min (cfg5.base_delay * 2 ^ st5.failures) cfg5.max_delay +
            min (cfg5.base_delay * 2 ^ st5.failures) cfg5.max_delay *
              cfg5.jitter_ratio * (1/2) }) ∧
      (handle_response cfg5 st5 204 0 (1/2) =
        { st5 with failures := 0, backoff_until := 0 }) ∧
      handle_response cfg5 st5 500 0 (1/2) = st5 :=
  ⟨(handle_response_spec cfg5 st5 403 0 (1/2)).1 (Or.inl rfl),
    (handle_response_spec cfg5 st5 204 0 (1/2)).2.1 (by norm_num) (by norm_num)
      (by norm_num),
    (handle_response_spec cfg5 st5 500 0 (1/2)).2.2 (by norm_num) (by norm_num)⟩

/- ------------------------------------------------------------------ -/
/- §3  WeiboLoaderContext.request (src/weiboloader/context.py)         -/
/- ------------------------------------------------------------------ -/

/-- What one `self.session.request` call yields: a transport failure
(`requests.RequestException`) or a response with a status code, whether
`extract_captcha_url` finds a challenge URL on it, and what
`_solve_captcha` would return for it. -/
inductive AttemptOutcome where
  | transportError
  | response (status : Nat) (challenge : Bool) (solveOk : Bool)
deriving DecidableEq, Repr

/-- How `WeiboLoaderContext.request` ends: returning the response of HTTP
call number `call` (0-based), or raising `AuthError`, `RateLimitError` or
`TargetError`. -/
inductive ReqResult where
  | ok (call : Nat)
  | authError
  | rateLimitError
  | targetError
deriving DecidableEq, Repr

/-- The `for attempt in range(retries + 1)` loop of `request` together with
`_handle_response` (context.py lines 68-136), returning the result and the
number of HTTP calls performed.  `outcomes k` is what the k-th HTTP call
yields; `fuel` is the number of loop iterations left (the loop starts with
`retries + 1`); one iteration makes exactly one HTTP call, whatever the
branch taken (`rate.handle_response`, irrelevant here, is called between the
HTTP call and the classification). -/
def requestGo (outcomes : Nat → AttemptOutcome) (allowCaptcha : Bool)
    (retries : Nat) : Nat → Nat → ReqResult × Nat
  | 0, _ => (.targetError, 0)
  | fuel + 1, attempt =>
    match outcomes attempt with
    | .transportError =>
      if retries ≤ attempt then (.targetError, 1)
      else
        let r := requestGo outcomes allowCaptcha retries fuel (attempt + 1)
        (r.1, r.2 + 1)
    | .response status challenge solveOk =>
      if allowCaptcha ∧ challenge then
        if solveOk then
          let r := requestGo outcomes allowCaptcha retries fuel (attempt + 1)
          (r.1, r.2 + 1)
        else (.authError, 1)
      else if status = 403 ∨ status = 418 then
        if attempt < retries then
          let r := requestGo outcomes allowCaptcha retries fuel (attempt + 1)
          (r.1, r.2 + 1)
        else (.rateLimitError, 1)
      else if status = 401 then (.authError, 1)
      else if 500 ≤ status then
        if attempt < retries then
          let r := requestGo outcomes allowCaptcha retries fuel (attempt + 1)
          (r.1, r.2 + 1)
        else (.targetError, 1)
      else if 400 ≤ status then (.targetError, 1)
      else (.ok attempt, 1)

/-- Model of `WeiboLoaderContext.request`: run the loop for `retries + 1` iterations
starting at attempt 0. -/
def request (outcomes : Nat → AttemptOutcome) (allowCaptcha : Bool)
    (retries : Nat) : ReqResult × Nat :=
  requestGo outcomes allowCaptcha retries (retries + 1) 0

theorem requestGo_calls_le (outcomes : Nat → AttemptOutcome)
    (allowCaptcha : Bool) (retries : Nat) :
    ∀ fuel attempt,
      (requestGo outcomes allowCaptcha retries fuel attempt).2 ≤ fuel
  | 0, _ => Nat.le_refl 0
  | fuel + 1, attempt => by
    rw [requestGo]
    have ih := requestGo_calls_le outcomes allowCaptcha retries fuel (attempt + 1)
    cases outcomes attempt with
    | transportError => dsimp only; split <;> simp <;> omega
    | response status challenge solveOk =>
      dsimp only
      split
      · split <;> simp <;> omega
      · split
        · split <;> simp <;> omega
        · split
          · simp
          · split
            · split <;> simp <;> omega
            · split <;> simp

/-- Renumbering of a result's call index by one (the response of shifted call
`k` is the response of original call `k + 1`). -/
def bumpOk : ReqResult → ReqResult
  | .ok k => .ok (k + 1)
  | r => r

/-- Shifting by one consumed iteration: running the loop from attempt
`a + 1` with budget `retries ≥ 1` behaves exactly like running it from
attempt `a` against the shifted outcome stream with budget `retries - 1`
(same call count, same result up to renumbering). -/
theorem requestGo_shift (outcomes : Nat → AttemptOutcome)
    (allowCaptcha : Bool) (retries : Nat) (hr : 1 ≤ retries) :
    ∀ fuel attempt,
      requestGo outcomes allowCaptcha retries fuel (attempt + 1) =
        (bumpOk (requestGo (fun k => outcomes (k + 1)) allowCaptcha
            (retries - 1) fuel attempt).1,
          (requestGo (fun k => outcomes (k + 1)) allowCaptcha (retries - 1)
            fuel attempt).2)
  | 0, _ => rfl
  | fuel + 1, attempt => by
    have ih := requestGo_shift outcomes allowCaptcha retries hr fuel (attempt + 1)
    rw [requestGo, requestGo]
    dsimp only
    cases outcomes (attempt + 1) with
    | transportError =>
      dsimp only
      by_cases h : retries ≤ attempt + 1
      · rw [if_pos h, if_pos (show retries - 1 ≤ attempt by omega)]
        rfl
      · rw [if_neg h, if_neg (show ¬ retries - 1 ≤ attempt by omega), ih]
    | response status challenge solveOk =>
      dsimp only
      by_cases hch : allowCaptcha = true ∧ challenge = true
      · rw [if_pos hch, if_pos hch]
        cases solveOk
        · rfl
        · rw [if_pos rfl, if_pos rfl, ih]
      · rw [if_neg hch, if_neg hch]
        by_cases hrt : status = 403 ∨ status = 418
        · rw [if_pos hrt, if_pos hrt]
          by_cases hlt : attempt + 1 < retries
          · rw [if_pos hlt, if_pos (show attempt < retries - 1 by omega), ih]
          · rw [if_neg hlt, if_neg (show ¬ attempt < retries - 1 by omega)]
            rfl
        · rw [if_neg hrt, if_neg hrt]
          by_cases h401 : status = 401
          · rw [if_pos h401, if_pos h401]
            rfl
          · rw [if_neg h401, if_neg h401]
            by_cases h5 : 500 ≤ status
            · rw [if_pos h5, if_pos h5]
              by_cases hlt : attempt + 1 < retries
              · rw [if_pos hlt, if_pos (show attempt < retries - 1 by omega), ih]
              · rw [if_neg hlt, if_neg (show ¬ attempt < retries - 1 by omega)]
                rfl
            · rw [if_neg h5, if_neg h5]
              by_cases h4 : 400 ≤ status
              · rw [if_pos h4, if_pos h4]
                rfl
              · rw [if_neg h4, if_neg h4]
                rfl

/-- A first HTTP call hitting a solvable challenge, all later calls plain
200 responses. -/
def challengeThenOk : Nat → AttemptOutcome := fun k =>
  if k = 0 then .response 418 true true else .response 200 false false

/-- Claim C4, counterexample: a solved challenge does consume an attempt.
With `retries = 0` (budget of one loop iteration) and a first response that is
a solved challenge, `request` exhausts its loop and raises `TargetError`
after a single HTTP call instead of retrying and returning the 200 response;
with `retries = 1` the same stream succeeds on the second call — the solved
challenge used up one of the `retries + 1` iterations. -/
theorem request_challenge_consumes_attempt :
    request challengeThenOk true 0 = (.targetError, 1) ∧
      request challengeThenOk true 1 = (.ok 1, 2) :=
  ⟨rfl, rfl⟩

/-- Claim C4 (corrected): in `WeiboLoaderContext.request` with
`allow_captcha = true`, a response matching the challenge signature whose
handler succeeds is retried immediately, but the retry consumes an attempt
from the same `retries + 1`-iteration budget (the loop performs at most
`retries + 1` HTTP calls whatever the mix of challenge, 403/418, ≥ 500 and
transport retries): after a solved challenge on call 0 the request behaves
exactly like a fresh request with budget `retries - 1` over the remaining
calls.  When the handler fails, `AuthError` is raised at once. -/
theorem request_challenge_spec (outcomes : Nat → AttemptOutcome)
    (retries : Nat) (status : Nat) :
    ((request outcomes true retries).2 ≤ retries + 1) ∧
      (outcomes 0 = .response status true true → 1 ≤ retries →
        request outcomes true retries =
          (bumpOk (request (fun k => outcomes (k + 1)) true (retries - 1)).1,
            (request (fun k => outcomes (k + 1)) true (retries - 1)).2 + 1)) ∧
      (outcomes 0 = .response status true false →
        (request outcomes true retries).1 = .authError) := by
  refine ⟨requestGo_calls_le outcomes true retries (retries + 1) 0,
    fun h0 hr => ?_, fun h0 => ?_⟩
  · rw [request, requestGo, h0]
    dsimp only
    rw [if_pos ⟨rfl, rfl⟩, if_pos rfl]
    rw [requestGo_shift outcomes true retries hr retries 0, request]
    have hfu : retries - 1 + 1 = retries := by omega
    rw [hfu]
  · rw [request, requestGo, h0]
    dsimp only
    rw [if_pos ⟨rfl, rfl⟩]
    rfl

/-- Witness for `request_challenge_spec` on the concrete stream
`challengeThenOk` with `retries = 1`, and on its solve-failing variant. -/
theorem request_challenge_spec_witness :
    ((request challengeThenOk true 1).2 ≤ 1 + 1) ∧
      (request challengeThenOk true 1 =
        (bumpOk (request (fun k => challengeThenOk (k + 1)) true 0).1,
          (request (fun k => challengeThenOk (k + 1)) true 0).2 + 1)) ∧
      (request (fun k => if k = 0 then .response 418 true false
          else .response 200 false false) true 1).1 = .authError :=
  ⟨(request_challenge_spec challengeThenOk 1 418).1,
    (request_challenge_spec challengeThenOk 1 418).2.1 rfl (Nat.le_refl 1),
    (request_challenge_spec (fun k => if k = 0 then .response 418 true false
      else .response 200 false false) 1 418).2.2 rfl⟩

/- ------------------------------------------------------------------ -/
/- §4  CheckpointManager (src/weiboloader/nodeiterator.py, 23-86)      -/
/- ------------------------------------------------------------------ -/

/-- JSON documents as produced by `json.load` / consumed by `json.dump`
(object keys are unique after parsing). -/
inductive Json where
  | jnull
  | jbool (b : Bool)
  | jnum (n : Int)
  | jstr (s : String)
  | jarr (xs : List Json)
  | jobj (fields : List (String × Json))

/-- What the checkpoint file for a key holds: absent, bytes that are not
valid JSON, or a parsed JSON document. -/
inductive FileState where
  | absent
  | malformed
  | doc (j : Json)

/-- Python `dict.get(k)` on a parsed JSON object. -/
def jGet (fields : List (String × Json)) (k : String) : Option Json :=
  (fields.find? (fun kv => kv.1 == k)).map (fun kv => kv.2)

/-- How `CheckpointManager.load` ends: `raises e` models an uncaught Python
exception (only `json.JSONDecodeError`, `KeyError` and `TypeError` are
caught), `noResult` is `None`, and `loaded` carries the five
`CursorState(...)` constructor arguments exactly as the dynamically-typed
Python call receives them (a JSON value each; `jnull` doubles for Python
`None`, which `json` maps to null). -/
inductive LoadResult where
  | raises (e : String)
  | noResult
  | loaded (page cursor seen ohash ts : Json)

/-- Model of `CheckpointManager.load` (nodeiterator.py lines 46-64) for a manager
whose `options_hash` is `selfHash`, on a file in state `fs`.  Mirrors the
source: missing file → `None`; `json.load` failure → caught, `None`;
`data.get` on a non-object document → uncaught `AttributeError`; version or
options-hash mismatch (Python `!=` against the strings `VERSION = "1"` and
`selfHash`, false for any non-string JSON value) → `None`; missing `"page"`
key → `KeyError`, caught, `None`; otherwise the `CursorState` is built from
the fields with `.get` defaults (`None`, `[]`, `""`, `None`). -/
def checkpoint_load (selfHash : String) (fs : FileState) : LoadResult :=
  match fs with
  | .absent => .noResult
  | .malformed => .noResult
  | .doc (.jobj fields) =>
    let versionOk := match jGet fields "version" with
      | some (.jstr v) => v == "1"
      | _ => false
    let hashOk := match jGet fields "options_hash" with
      | some (.jstr v) => v == selfHash
      | _ => false
    if versionOk && hashOk then
      match jGet fields "page" with
      | none => .noResult
      | some pg =>
        .loaded pg ((jGet fields "cursor").getD .jnull)
          ((jGet fields "seen_mids").getD (.jarr []))
          ((jGet fields "options_hash").getD (.jstr ""))
          ((jGet fields "timestamp").getD .jnull)
    else .noResult
  | .doc _ => .raises "AttributeError"

def jOptStr : Option String → Json
  | some s => .jstr s
  | none => .jnull

/-- The JSON document that a successful `CheckpointManager.save`
(nodeiterator.py lines 66-85) leaves in the checkpoint file: the `data` dict
written with `json.dump` after the fsync-and-rename dance. -/
def checkpoint_save_doc (state : CursorState) : Json :=
  .jobj [("version", .jstr "1"), ("page", .jnum state.page),
    ("cursor", jOptStr state.cursor),
    ("seen_mids", .jarr (state.seen_mids.map .jstr)),
    ("options_hash", .jstr state.options_hash),
    ("timestamp", jOptStr state.timestamp)]

/-- Claim C6 (code bug): `load` is meant never to raise — it catches
`JSONDecodeError`, `KeyError` and `TypeError` — but on a file holding valid
JSON that is not an object (here the array `[]`), `data.get("version")`
raises an uncaught `AttributeError`. -/
theorem checkpoint_load_raises_on_nonobject :
    checkpoint_load "" (.doc (.jarr [])) = .raises "AttributeError" ∧
      checkpoint_load "" .absent = .noResult ∧
      checkpoint_load "" .malformed = .noResult ∧
      checkpoint_load "" (.doc (.jobj [("version", .jstr "0")])) = .noResult ∧
      checkpoint_load "h" (.doc (.jobj [("version", .jstr "1"),
        ("options_hash", .jstr "other")])) = .noResult :=
  ⟨rfl, rfl, rfl, rfl, rfl⟩

/-- Claim C7 (confirmed): for every `CursorState` whose `options_hash`
equals the manager's, loading the document written by a successful save
returns exactly the saved state — page, cursor, seen_mids, options_hash and
timestamp all preserved. -/
theorem checkpoint_roundtrip (mgrHash : String) (s : CursorState)
    (h : s.options_hash = mgrHash) :
    checkpoint_load mgrHash (.doc (checkpoint_save_doc s)) =
      .loaded (.jnum s.page) (jOptStr s.cursor)
        (.jarr (s.seen_mids.map .jstr)) (.jstr s.options_hash)
        (jOptStr s.timestamp) := by
  subst h
  simp [checkpoint_load, checkpoint_save_doc, jGet, List.find?]

/-- Witness for `checkpoint_roundtrip` at a concrete state. -/
theorem checkpoint_roundtrip_witness :
    ({ page := 5, cursor := some "c123", seen_mids := ["m1", "m2"],
       options_hash := "abc", timestamp := some "2024-01-01T00:00:00" }
        : CursorState).options_hash = "abc" ∧
      checkpoint_load "abc" (.doc (checkpoint_save_doc
        { page := 5, cursor := some "c123", seen_mids := ["m1", "m2"],
          options_hash := "abc", timestamp := some "2024-01-01T00:00:00" })) =
        .loaded (.jnum 5) (jOptStr (some "c123"))
          (.jarr (["m1", "m2"].map .jstr)) (.jstr "abc")
          (jOptStr (some "2024-01-01T00:00:00")) :=
  ⟨rfl, checkpoint_roundtrip "abc" _ rfl⟩

/- ------------------------------------------------------------------ -/
/- §5  _extract_media (src/weiboloader/adapter.py, lines 79-97)        -/
/- ------------------------------------------------------------------ -/

/-- One entry of `mblog["pics"]`: `pic.get("large", {}).get("url")` and
`pic.get("url")`, each possibly absent (`none`) or present (possibly the
empty, falsy, string). -/
structure Pic where
  large_url : Option String
  url : Option String
deriving DecidableEq, Repr

/-- The four candidate URLs of `page_info["media_info"]`. -/
structure MediaInfo where
  stream_url_hd : Option String
  mp4_720p_mp4 : Option String
  mp4_hd_url : Option String
  stream_url : Option String
deriving DecidableEq, Repr

/-- Model of `mblog["page_info"]`: its `type` and optional `media_info`.  A missing or
falsy (empty-dict) `page_info` is `none` in `Mblog` below. -/
structure PageInfo where
  ptype : Option String
  media_info : Option MediaInfo
deriving DecidableEq, Repr

/-- The parts of an `mblog` record that `_extract_media` reads. -/
structure Mblog where
  pics : List Pic
  page_info : Option PageInfo
deriving DecidableEq, Repr

/-- A `MediaItem` as far as this claim is concerned (`filename_hint` and
`raw`, which the claim does not mention, are omitted). -/
structure MediaItem where
  media_type : String
  url : String
  index : Nat
deriving DecidableEq, Repr

/-- Python truthiness of an optional string: `None` and `""` are falsy. -/
def truthyStr : Option String → Option String
  | some s => if s = "" then none else some s
  | none => none

/-- Evaluation of `pic.get("large", {}).get("url") or pic.get("url")`, then `if url:` —
the first truthy of the two candidates. -/
def picUrlChoice (p : Pic) : Option String :=
  match truthyStr p.large_url with
  | some s => some s
  | none => truthyStr p.url

/-- Evaluation of `info.get("stream_url_hd") or info.get("mp4_720p_mp4") or
info.get("mp4_hd_url") or info.get("stream_url")`, then `if url:`. -/
def videoUrlChoice (info : MediaInfo) : Option String :=
  match truthyStr info.stream_url_hd with
  | some s => some s
  | none =>
    match truthyStr info.mp4_720p_mp4 with
    | some s => some s
    | none =>
      match truthyStr info.mp4_hd_url with
      | some s => some s
      | none => truthyStr info.stream_url

/-- The `for i, pic in enumerate(mblog.get("pics", []))` loop: a picture
item is appended for each pic with a truthy URL, indexed by the enumerate
counter `i` (which advances on every pic, emitted or not). -/
def picItemsLoop : List Pic → Nat → List MediaItem
  | [], _ => []
  | p :: ps, i =>
    match picUrlChoice p with
    | some u => ⟨"picture", u, i⟩ :: picItemsLoop ps (i + 1)
    | none => picItemsLoop ps (i + 1)

/-- Model of `_extract_media`: the picture loop, then at most one video item for a
`page_info` of type `"video"` (`page.get("media_info") or {}` makes a missing
`media_info` an empty dict, i.e. all four candidates absent), whose index is
`len(items)` at the moment of appending. -/
def extract_media (m : Mblog) : List MediaItem :=
  let items := picItemsLoop m.pics 0
  match m.page_info with
  | some pg =>
    if pg.ptype = some "video" then
      match videoUrlChoice (pg.media_info.getD ⟨none, none, none, none⟩) with
      | some u => items ++ [⟨"video", u, items.length⟩]
      | none => items
    else items
  | none => items

/-- An mblog whose first pic has no URL and whose second does. -/
def mblogSkipPic : Mblog :=
  { pics := [⟨none, none⟩, ⟨none, some "u"⟩], page_info := none }

/-- Claim C8, counterexample: picture indices come from `enumerate(pics)`,
not from the emission order.  With a URL-less first pic, the single emitted
item sits at emission position 0 but carries index 1. -/
theorem extract_media_index_cex :
    extract_media mblogSkipPic = [⟨"picture", "u", 1⟩] ∧
      (extract_media mblogSkipPic).map MediaItem.index ≠
        List.range (extract_media mblogSkipPic).length :=
  ⟨rfl, by decide⟩

theorem picItemsLoop_mem (ps : List Pic) (i : Nat) (it : MediaItem)
    (h : it ∈ picItemsLoop ps i) :
    it.media_type = "picture" ∧ i ≤ it.index ∧
      ∃ p, ps.get? (it.index - i) = some p ∧ picUrlChoice p = some it.url := by
  induction ps generalizing i with
  | nil => cases h
  | cons p ps ih =>
    rw [picItemsLoop] at h
    cases hu : picUrlChoice p with
    | some u =>
      rw [hu] at h
      rcases List.mem_cons.mp h with h | h
      · subst h
        exact ⟨rfl, Nat.le_refl i, p, by simp, hu⟩
      · obtain ⟨h1, h2, q, h3, h4⟩ := ih (i + 1) h
        refine ⟨h1, by omega, q, ?_, h4⟩
        have : it.index - i = (it.index - (i + 1)) + 1 := by omega
        rw [this]
        simpa using h3
    | none =>
      rw [hu] at h
      obtain ⟨h1, h2, q, h3, h4⟩ := ih (i + 1) h
      refine ⟨h1, by omega, q, ?_, h4⟩
      have : it.index - i = (it.index - (i + 1)) + 1 := by omega
      rw [this]
      simpa using h3

theorem picItemsLoop_length (ps : List Pic) (i : Nat) :
    (picItemsLoop ps i).length =
      ps.countP (fun p => (picUrlChoice p).isSome) := by
  induction ps generalizing i with
  | nil => rfl
  | cons p ps ih =>
    rw [picItemsLoop, List.countP_cons]
    cases hu : picUrlChoice p with
    | some u => simp [hu, ih (i + 1)]
    | none => simp [hu, ih (i + 1)]

theorem picItemsLoop_sorted (ps : List Pic) (i : Nat) :
    ((picItemsLoop ps i).map MediaItem.index).Sorted (· < ·) := by
  induction ps generalizing i with
  | nil => exact List.sorted_nil
  | cons p ps ih =>
    rw [picItemsLoop]
    cases hu : picUrlChoice p with
    | some u =>
      rw [List.map_cons, List.sorted_cons]
      refine ⟨?_, ih (i + 1)⟩
      intro b hb
      simp only [List.mem_map] at hb
      obtain ⟨it, hit, hidx⟩ := hb
      have := (picItemsLoop_mem ps (i + 1) it hit).2.1
      simp only []
      omega
    | none => exact ih (i + 1)

theorem picItemsLoop_types (ps : List Pic) (i : Nat) (it : MediaItem)
    (h : it ∈ picItemsLoop ps i) : it.media_type = "picture" :=
  (picItemsLoop_mem ps i it h).1

/-- Claim C8 (corrected): `_extract_media` emits one picture item per pic
descriptor with a (truthy, `large.url`-preferred) URL, then at most one video
item.  But a picture item's `index` is the position of its descriptor in the
`pics` list — not its emission position — so indices of emitted pictures can
skip values when URL-less descriptors are interleaved; the video's index is
the number of items emitted before it.  Formally: every emitted item is a
picture or the video; every picture item's index points back to its
descriptor, whose URL choice it carries; the number of picture items equals
the number of URL-bearing descriptors; the picture indices are strictly
increasing (pictures keep `pics` order); and a video item, when present, is
last, with index equal to the number of emitted pictures. -/
theorem extract_media_spec (m : Mblog) :
    (∀ it ∈ extract_media m,
        it.media_type = "picture" ∨ it.media_type = "video") ∧
      (∀ it ∈ extract_media m, it.media_type = "picture" →
        ∃ p, m.pics.get? it.index = some p ∧ picUrlChoice p = some it.url) ∧
      ((extract_media m).countP (fun it => it.media_type == "picture") =
        m.pics.countP (fun p => (picUrlChoice p).isSome)) ∧
      (((extract_media m).filter
          (fun it => it.media_type == "picture")).map MediaItem.index).Sorted
        (· < ·) ∧
      (∀ it ∈ extract_media m, it.media_type = "video" →
        extract_media m = picItemsLoop m.pics 0 ++
          [⟨"video", it.url, (picItemsLoop m.pics 0).length⟩]) := by
  have hpics_filter :
      (picItemsLoop m.pics 0).filter (fun it => it.media_type == "picture") =
        picItemsLoop m.pics 0 :=
    List.filter_eq_self.mpr (fun it hit => by
      simp [picItemsLoop_types m.pics 0 it hit])
  have hpics_count :
      (picItemsLoop m.pics 0).countP (fun it => it.media_type == "picture") =
        m.pics.countP (fun p => (picUrlChoice p).isSome) := by
    rw [List.countP_eq_length_filter, hpics_filter, picItemsLoop_length]
  have hsplit : extract_media m = picItemsLoop m.pics 0 ∨
      ∃ u, extract_media m = picItemsLoop m.pics 0 ++
        [⟨"video", u, (picItemsLoop m.pics 0).length⟩] := by
    rw [extract_media]
    cases m.page_info with
    | none => exact Or.inl rfl
    | some pg =>
      dsimp only
      by_cases hv : pg.ptype = some "video"
      · rw [if_pos hv]
        cases videoUrlChoice (pg.media_info.getD ⟨none, none, none, none⟩) with
        | some u => exact Or.inr ⟨u, rfl⟩
        | none => exact Or.inl rfl
      · rw [if_neg hv]
        exact Or.inl rfl
  rcases hsplit with hsp | ⟨u, hsp⟩ <;> rw [hsp]
  · refine ⟨fun it hit => Or.inl (picItemsLoop_types m.pics 0 it hit),
      fun it hit _ => ?_, hpics_count, ?_, fun it hit hv => ?_⟩
    · obtain ⟨-, -, p, hp, hu⟩ := picItemsLoop_mem m.pics 0 it hit
      exact ⟨p, by simpa using hp, hu⟩
    · rw [hpics_filter]
      exact picItemsLoop_sorted m.pics 0
    · have := picItemsLoop_types m.pics 0 it hit
      rw [hv] at this
      exact absurd this (by decide)
  · have hvid_filter :
        ([(⟨"video", u, (picItemsLoop m.pics 0).length⟩ : MediaItem)].filter
          (fun it => it.media_type == "picture")) = [] := rfl
    refine ⟨fun it hit => ?_, fun it hit hp => ?_, ?_, ?_, fun it hit hv => ?_⟩
    · rcases List.mem_append.mp hit with h | h
      · exact Or.inl (picItemsLoop_types m.pics 0 it h)
      · simp only [List.mem_singleton] at h
        subst h
        exact Or.inr rfl
    · rcases List.mem_append.mp hit with h | h
      · obtain ⟨-, -, p, hpp, hu⟩ := picItemsLoop_mem m.pics 0 it h
        exact ⟨p, by simpa using hpp, hu⟩
      · simp only [List.mem_singleton] at h
        subst h
        simp at hp
    · rw [List.countP_append, hpics_count]
      simp
    · rw [List.filter_append, hpics_filter, hvid_filter, List.append_nil]
      exact picItemsLoop_sorted m.pics 0
    · rcases List.mem_append.mp hit with h | h
      · have := picItemsLoop_types m.pics 0 it h
        rw [hv] at this
        exact absurd this (by decide)
      · simp only [List.mem_singleton] at h
        subst h
        rfl

/-- An mblog with one URL-bearing pic and a video `page_info`. -/
def mblogVid : Mblog :=
  { pics := [⟨some "L", some "u"⟩],
    page_info := some ⟨some "video", some ⟨some "hd", none, none, none⟩⟩ }

/-- Witness for `extract_media_spec` on `mblogVid`, whose extraction is
`[picture "L" @0, video "hd" @1]`. -/
theorem extract_media_spec_witness :
    (⟨"picture", "L", 0⟩ : MediaItem) ∈ extract_media mblogVid ∧
      (∃ p, mblogVid.pics.get? 0 = some p ∧ picUrlChoice p = some "L") ∧
      extract_media mblogVid = picItemsLoop mblogVid.pics 0 ++
        [⟨"video", "hd", (picItemsLoop mblogVid.pics 0).length⟩] :=
  have hmem : (⟨"picture", "L", 0⟩ : MediaItem) ∈ extract_media mblogVid := by
    decide
  have hvmem : (⟨"video", "hd", 1⟩ : MediaItem) ∈ extract_media mblogVid := by
    decide
  ⟨hmem, (extract_media_spec mblogVid).2.1 ⟨"picture", "L", 0⟩ hmem rfl,
    (extract_media_spec mblogVid).2.2.2.2 ⟨"video", "hd", 1⟩ hvmem rfl⟩

/- ------------------------------------------------------------------ -/
/- §6  WeiboLoader._download (src/weiboloader/weiboloader.py 277-302)  -/
/- ------------------------------------------------------------------ -/

/- Core `String.splitOn`/`replace` do not reduce in the kernel, so path
strings are manipulated on their character lists with structural
recursion. -/

/-- Split a character list on `'/'` (like Python `str.split("/")`): always at
least one (possibly empty) component. -/
def splitSlash : List Char → List (List Char)
  | [] => [[]]
  | c :: cs =>
    match splitSlash cs with
    | [] => [[c]]
    | y :: ys => if c = '/' then [] :: y :: ys else (c :: y) :: ys

/-- Join components with `'/'` (inverse of `splitSlash`). -/
def joinSlash : List (List Char) → List Char
  | [] => []
  | [p] => p
  | p :: ps => p ++ '/' :: joinSlash ps

/-- Python `str.rfind('.')`: index of the last dot, if any. -/
def pyRfindDot (name : List Char) : Option Nat :=
  match name.reverse.findIdx? (fun c => c == '.') with
  | some k => some (name.length - 1 - k)
  | none => none

/-- Behaviour of `pathlib.PurePath.with_suffix` on the final component: the suffix starts
at the last dot provided it is neither the leading nor the trailing
character (`0 < i < len(name) - 1`); the old suffix, when present, is
replaced by `suf`, otherwise `suf` is appended. -/
def withSuffixName (name suf : List Char) : List Char :=
  match pyRfindDot name with
  | some i => if 0 < i ∧ i < name.length - 1 then name.take i ++ suf
      else name ++ suf
  | none => name ++ suf

/-- Model of `Path(p).with_suffix(suf)` for a relative slash path. -/
def withSuffix (p suf : String) : String :=
  let parts := splitSlash p.data
  String.mk (joinSlash (parts.dropLast ++ [withSuffixName (parts.getLastD []) suf.data]))

/-- A flat model of the files this worker touches: path ↦ byte list. -/
def FS : Type := List (String × List Nat)

def fsGet (fs : FS) (p : String) : Option (List Nat) :=
  (fs.find? (fun e => e.1 == p)).map (fun e => e.2)

def fsWrite (fs : FS) (p : String) (d : List Nat) : FS :=
  (p, d) :: fs.filter (fun e => !(e.1 == p))

/-- Model of `unlink(missing_ok=True)`. -/
def fsRemove (fs : FS) (p : String) : FS :=
  fs.filter (fun e => !(e.1 == p))

/-- How the streamed transfer of one media URL goes: the request call raises
before the part file is opened, the stream dies after `got` bytes were
written, or the whole body arrives. -/
inductive FetchResult where
  | failEarly
  | failMid (got : List Nat)
  | fetched (bytes : List Nat)

/-- Model of `MediaOutcome` (src/weiboloader/ui.py). -/
inductive DLOutcome where
  | downloaded
  | skipped
  | failed
deriving DecidableEq, Repr

/-- Body of `WeiboLoader._download` once the skip test has failed: write to
`part = dest.with_suffix(".part")`; on a complete body, fsync and
`os.replace(part, dest)`; on any error, unlink the part path and report
FAILED.  The third component records which paths were opened for writing. -/
def downloadBody (fs : FS) (dest : String) (f : FetchResult) :
    DLOutcome × FS × List String :=
  let part := withSuffix dest ".part"
  match f with
  | .fetched bytes =>
    (.downloaded, fsWrite (fsRemove (fsWrite fs part bytes) part) dest bytes,
      [part])
  | .failMid got => (.failed, fsRemove (fsWrite fs part got) part, [part])
  | .failEarly => (.failed, fsRemove fs part, [])

/-- Evaluation of `dest.exists() and dest.stat().st_size > 0`. -/
def destNonEmpty (fs : FS) (dest : String) : Bool :=
  match fsGet fs dest with
  | some d => decide (0 < d.length)
  | none => false

/-- Model of `WeiboLoader._download`: return SKIPPED with no filesystem action when
`dest` exists with size > 0, else run the transfer. -/
def download (fs : FS) (dest : String) (f : FetchResult) :
    DLOutcome × FS × List String :=
  if destNonEmpty fs dest then (.skipped, fs, [])
  else downloadBody fs dest f

/-- Claim C9 (code bug): `_download` streams to `dest.with_suffix(".part")`,
which replaces `dest`'s final extension, not to `dest + ".part"` as the
claim (and the tests' `.part` assertions) intend: for `dest = "a.jpg"` the
temporary actually written is `"a.part"`, not `"a.jpg.part"`; consequently
an error path only unlinks `"a.part"` and leaves a stale `"a.jpg.part"`
file in place, and two sibling destinations `"a.jpg"` and `"a.mp4"` share
the one temporary path `"a.part"`. -/
theorem download_part_path_cex :
    withSuffix "a.jpg" ".part" = "a.part" ∧
      "a.jpg" ++ ".part" = "a.jpg.part" ∧
      ("a.part" : String) ≠ "a.jpg.part" ∧
      (download [] "a.jpg" (.fetched [7])).2.2 = ["a.part"] ∧
      (download [("a.jpg.part", [1])] "a.jpg" .failEarly).2.1 =
        [("a.jpg.part", [1])] ∧
      withSuffix "a.mp4" ".part" = withSuffix "a.jpg" ".part" :=
  ⟨rfl, rfl, by decide, rfl, rfl, rfl⟩

/- ------------------------------------------------------------------ -/
/- §7  naming.sanitize / build_directory (src/weiboloader/naming.py)   -/
/- ------------------------------------------------------------------ -/

/-- The character set `ILLEGAL = '\\/:*?"<>|'`. -/
def ILLEGAL : List Char := ['\\', '/', ':', '*', '?', '"', '<', '>', '|']

/-- Model of `sanitize` (naming.py lines 24-29): strip the illegal characters, then
map a result of `"."` or `".."` to the empty string. -/
def sanitize (s : String) : String :=
  let result := String.mk (s.data.filter (fun c => !(ILLEGAL.contains c)))
  if result = "." ∨ result = ".." then "" else result

/-- Python `str.replace("\\", "/")` (single characters, so a map). -/
def replaceBackslash (cs : List Char) : List Char :=
  cs.map (fun c => if c = '\\' then '/' else c)

/-- The `for i, p in enumerate(parts)` loop of `build_directory` (naming.py
lines 96-105): drop empty components, keep a literal `"."` only at position
0, otherwise sanitize and fall back to `"x"` when sanitization is empty. -/
def dirPartsLoop : List String → Nat → List String
  | [], _ => []
  | p :: ps, i =>
    if p = "" then dirPartsLoop ps (i + 1)
    else if i = 0 ∧ p = "." then "." :: dirPartsLoop ps (i + 1)
    else (let sp := sanitize p; if sp = "" then "x" else sp) ::
      dirPartsLoop ps (i + 1)

/-- The sanitized component list of `build_directory` for the rendered
template string (`render_template` output ranges over arbitrary strings, so
the claim's quantification over targets, patterns and arguments reduces to
quantification over `rendered`). -/
def buildDirParts (rendered : String) : List String :=
  dirPartsLoop ((splitSlash (replaceBackslash rendered.data)).map String.mk) 0

/-- Model of `str.endswith("/")`. -/
def endsWithSlash (s : String) : Bool :=
  match s.data.getLast? with
  | some c => c = '/'
  | none => false

/-- Model of `build_directory` after template rendering: join the sanitized
components, restoring a trailing slash when the rendered string had one. -/
def build_directory (rendered : String) : String :=
  let joined := String.mk (joinSlash ((buildDirParts rendered).map String.data))
  if endsWithSlash rendered then joined ++ "/" else joined

/-- A safe path component: non-empty, not a dot-link, free of the illegal
characters. -/
def SafeComponent (c : String) : Prop :=
  c ≠ "" ∧ c ≠ "." ∧ c ≠ ".." ∧ ∀ ch ∈ c.data, ch ∉ ILLEGAL

theorem sanitize_not_dot (p : String) : sanitize p ≠ "." ∧ sanitize p ≠ ".." := by
  rw [sanitize]
  split
  · exact ⟨by decide, by decide⟩
  · rename_i h
    push_neg at h
    exact h

theorem sanitize_chars (p : String) (ch : Char) (h : ch ∈ (sanitize p).data) :
    ch ∉ ILLEGAL := by
  rw [sanitize] at h
  split at h
  · cases h
  · have h' : ch ∈ p.data.filter (fun c => !(ILLEGAL.contains c)) := h
    have := List.of_mem_filter h'
    simpa using this

theorem dirPartsLoop_safe (ps : List String) (i : Nat) (c : String)
    (hc : c ∈ dirPartsLoop ps i) :
    SafeComponent c ∨ (c = "." ∧ i = 0) := by
  induction ps generalizing i with
  | nil => cases hc
  | cons p ps ih =>
    rw [dirPartsLoop] at hc
    split at hc
    · rcases ih (i + 1) hc with h | ⟨-, h⟩
      · exact Or.inl h
      · omega
    · split at hc
      · rename_i hdot
        rcases List.mem_cons.mp hc with h | h
        · exact Or.inr ⟨h, hdot.1⟩
        · rcases ih (i + 1) h with h' | ⟨-, h'⟩
          · exact Or.inl h'
          · omega
      · rcases List.mem_cons.mp hc with h | h
        · subst h
          by_cases hsp : sanitize p = ""
        -- the component is the fallback "x" or a non-empty sanitized string
          · rw [if_pos hsp]
            exact Or.inl ⟨by decide, by decide, by decide, by decide⟩
          · rw [if_neg hsp]
            exact Or.inl ⟨hsp, (sanitize_not_dot p).1, (sanitize_not_dot p).2,
              fun ch hch => sanitize_chars p ch hch⟩
        · rcases ih (i + 1) h with h' | ⟨-, h'⟩
          · exact Or.inl h'
          · omega

theorem dirPartsLoop_pos_safe (ps : List String) (i : Nat) (hi : 1 ≤ i)
    (c : String) (hc : c ∈ dirPartsLoop ps i) : SafeComponent c := by
  rcases dirPartsLoop_safe ps i c hc with h | ⟨-, h⟩
  · exact h
  · omega

theorem dirPartsLoop_tail_safe (ps : List String) (c : String)
    (hc : c ∈ (dirPartsLoop ps 0).drop 1) : SafeComponent c := by
  cases ps with
  | nil => cases hc
  | cons p ps =>
    rw [dirPartsLoop] at hc
    split at hc
    · exact dirPartsLoop_pos_safe ps 1 (Nat.le_refl 1) c
        (List.mem_of_mem_drop hc)
    · split at hc
      · rw [List.drop_succ_cons, List.drop_zero] at hc
        exact dirPartsLoop_pos_safe ps 1 (Nat.le_refl 1) c hc
      · rw [List.drop_succ_cons, List.drop_zero] at hc
        exact dirPartsLoop_pos_safe ps 1 (Nat.le_refl 1) c hc

/-- Claim C10 (confirmed): every component of the sanitized directory path,
other than a single leading `"."`, is non-empty, is neither `"."` nor
`".."`, and contains none of `\ / : * ? " < > |` — for every rendered
template string (`render_template`'s output ranges over arbitrary strings,
so this covers every target, pattern and argument values), hence the
relative path cannot escape the output directory. -/
theorem build_directory_safe (rendered : String) :
    (∀ c ∈ buildDirParts rendered, SafeComponent c ∨ c = ".") ∧
      ∀ c ∈ (buildDirParts rendered).drop 1, SafeComponent c := by
  constructor
  · intro c hc
    rcases dirPartsLoop_safe _ 0 c hc with h | ⟨h, -⟩
    · exact Or.inl h
    · exact Or.inr h
  · intro c hc
    exact dirPartsLoop_tail_safe _ c hc

/-- Witness for `build_directory_safe` on the hostile rendered string
`"../a:b/./c"`, whose sanitized parts are `["x", "ab", "x", "c"]`. -/
theorem build_directory_safe_witness :
    buildDirParts "../a:b/./c" = ["x", "ab", "x", "c"] ∧
      (SafeComponent "ab" ∨ "ab" = ".") ∧ SafeComponent "c" :=
  ⟨rfl,
    (build_directory_safe "../a:b/./c").1 "ab" (by decide),
    (build_directory_safe "../a:b/./c").2 "c" (by decide)⟩
